import Mathlib

/-!
Shallow embedding of the `formatf` runtime string-formatting engine
(src/parser.rs, src/visit.rs, src/high.rs, src/format.rs, src/lib.rs).

Bytes are modelled as `Nat` (the source operates on `u8`; every byte
literal used below is the ASCII code of the corresponding character).
Byte slices are `List Nat`.  The caller-supplied sink is modelled as an
oracle `Sink : List Nat → List Nat → Bool` deciding, from the bytes
already written and the next chunk, whether the `put` call succeeds;
on success the chunk is appended to the output.  `fun _ _ => true` is
the infallible `VecSink`.
-/

namespace Formatf

/-- Byte of a list at index `i`, with `0` (the NUL byte) past the end —
exactly the end-of-input convention of `do_visit` in parser.rs. -/
def charAt (s : List Nat) (i : Nat) : Nat := (s.drop i).headD 0

/-- Rust slice `&s[a..b]`. -/
def slice (s : List Nat) (a b : Nat) : List Nat := (s.take b).drop a

/-- parser.rs `is_flag`: one of `#0+- +'I`. -/
def isFlagB (c : Nat) : Bool :=
  c == 35 || c == 48 || c == 43 || c == 45 || c == 32 || c == 39 || c == 73

/-- `u8::is_ascii_digit`. -/
def isDigitB (c : Nat) : Bool := 48 ≤ c && c ≤ 57

/-- parser.rs `is_conversion_specifier`: one of `diouxXeEfFgGaAcsCSpnm`. -/
def isConvSpecB (c : Nat) : Bool :=
  c == 100 || c == 105 || c == 111 || c == 117 || c == 120 || c == 88 ||
  c == 101 || c == 69 || c == 102 || c == 70 || c == 103 || c == 71 ||
  c == 97 || c == 65 || c == 99 || c == 115 || c == 67 || c == 83 ||
  c == 112 || c == 110 || c == 109

/-- parser.rs `is_length_modifier`: one of `hlqLjzZt`. -/
def isLenModB (c : Nat) : Bool :=
  c == 104 || c == 108 || c == 113 || c == 76 || c == 106 || c == 122 ||
  c == 90 || c == 116

/-- Precision-field predicate of the scanning loop: `ch == b'.' || ch.is_ascii_digit()`. -/
def isPrecB (c : Nat) : Bool := c == 46 || isDigitB c

/-- Advance `i` while the byte at `i` satisfies `p`; structural recursion on
the part of the list not yet visited. -/
def takeRunAux (p : Nat → Bool) : List Nat → Nat → Nat
  | [], i => i
  | c :: rest, i => if p c then takeRunAux p rest (i + 1) else i

/-- Index of the first position `≥ i` whose byte fails `p` (or the first
index past the end).  This is one cascading cursor of the specification
scanning loop in `do_visit`: a field is the maximal run of bytes
satisfying its predicate, and end-of-input (the implicit NUL) fails
every predicate. -/
def takeRun (p : Nat → Bool) (s : List Nat) (i : Nat) : Nat :=
  takeRunAux p (s.drop i) i

/-- The five byte-range fields of one raw conversion specification,
mirroring `ConversionSpecification` in visit.rs. -/
structure RawSpecEvent where
  flags : List Nat
  fieldWidth : List Nat
  precision : List Nat
  length : List Nat
  specifier : List Nat
deriving DecidableEq, Repr

/-- Specification scanning sub-algorithm of `do_visit` (parser.rs lines
77–157): starting at the byte after `%`, the five cursors cascade —
each field closes the instant its predicate first fails, and the next
field starts at that same index.  Returns the raw specification and its
end index (`spec.end`). -/
def scanSpec (s : List Nat) (i : Nat) : RawSpecEvent × Nat :=
  let a := takeRun isFlagB s i
  let b := takeRun isDigitB s a
  let c := takeRun isPrecB s b
  let d := takeRun isLenModB s c
  let e := takeRun isConvSpecB s d
  (⟨slice s i a, slice s a b, slice s b c, slice s c d, slice s d e⟩, e)

/-- Visitor events of visit.rs (`visit_bytes`, `visit_escaped_percent`,
`visit_specification`). -/
inductive Event where
  | bytes (b : List Nat)
  | escapedPercent
  | spec (r : RawSpecEvent)
deriving DecidableEq, Repr

/-- Scanner state of `do_visit` (parser.rs `State`). -/
inductive ScanState where
  | none
  | string (j : Nat)
  | percent
deriving DecidableEq, Repr

/-- The `do_visit` loop.  The first argument is fuel: every iteration of
the source's `while i < n` loop increases `i` by at least one, so fuel
`s.length + 1` (as supplied by `doVisit`) never runs out while `i ≤
s.length`; the fuel-exhausted case repeats the loop-exit flush, which
is what the source does for every index past the end. -/
def doVisitF (s : List Nat) : Nat → Nat → ScanState → List Event
  | fuel + 1, i, st =>
    if i < s.length then
      let c := charAt s i
      match st with
      | .none =>
        if c == 37 then doVisitF s fuel (i + 1) .percent
        else doVisitF s fuel (i + 1) (.string i)
      | .string j =>
        if c == 37 then Event.bytes (slice s j i) :: doVisitF s fuel (i + 1) .percent
        else doVisitF s fuel (i + 1) (.string j)
      | .percent =>
        if c == 37 then Event.escapedPercent :: doVisitF s fuel (i + 1) .none
        else
          let r := scanSpec s i
          Event.spec r.1 ::
            doVisitF s fuel (r.2 + 1)
              (if r.2 == s.length then ScanState.none else ScanState.string r.2)
    else
      match st with
      | .string j => [Event.bytes (slice s j s.length)]
      | _ => []
  | 0, _, st =>
    match st with
    | .string j => [Event.bytes (slice s j s.length)]
    | _ => []

/-- parser.rs `do_visit`, as the list of visitor events it emits in order. -/
def doVisit (s : List Nat) : List Event :=
  doVisitF s (s.length + 1) 0 .none

/-- Whether an event is a `visit_specification` event. -/
def Event.isSpec : Event → Bool
  | .spec _ => true
  | _ => false

/-- Number of `visit_specification` events. -/
def countSpecs (evs : List Event) : Nat :=
  evs.countP Event.isSpec

/-! ### Specification parser (high.rs) -/

/-- high.rs `ParseError` (the payloads of `InvalidPrec`/`InvalidWidth`,
Rust `ParseIntError` details, are dropped; they carry no behaviour). -/
inductive ParseError where
  | missingSpecifier
  | unknownSpecifier
  | unknownFlag (c : Nat)
  | duplicateFlag (c : Nat)
  | invalidPrec
  | invalidWidth
  | unknownLenModifier
  | unsupported
deriving DecidableEq, Repr

/-- high.rs `ConvKind`. -/
inductive ConvKind where
  | signDecInt
  | string
deriving DecidableEq, Repr

/-- `ConvKind::from_bytes`: `d`/`i` → signed decimal int, `s` → string. -/
def ConvKind.fromBytes : List Nat → Option ConvKind
  | [100] => some .signDecInt
  | [105] => some .signDecInt
  | [115] => some .string
  | _ => Option.none

/-- high.rs `LenModifier`. -/
inductive LenModifier where
  | none
  | long
  | longer
  | longest
  | short
  | shorter
  | longDouble
  | size
  | ptrDiff
deriving DecidableEq, Repr

/-- `LenModifier::from_bytes`. -/
def LenModifier.fromBytes : List Nat → Except ParseError LenModifier
  | [108] => .ok .long
  | [108, 108] => .ok .longer
  | [106] => .ok .longest
  | [104] => .ok .short
  | [104, 104] => .ok .shorter
  | [76] => .ok .longDouble
  | [122] => .ok .size
  | [90] => .ok .size
  | [116] => .ok .ptrDiff
  | [] => .ok .none
  | _ => .error .unknownLenModifier

/-- high.rs `ConvFlags`. -/
structure ConvFlags where
  alt : Bool := false
  pad_zero : Bool := false
  adj_left : Bool := false
  pos_space : Bool := false
  force_sign : Bool := false
  comma_groups : Bool := false
  alt_digits : Bool := false
deriving DecidableEq, Repr

/-- One step of `ConvFlags::from_bytes`: set the flag selected by byte `c`,
rejecting unknown bytes and duplicate flags. -/
def ConvFlags.setFlag (f : ConvFlags) (c : Nat) : Except ParseError ConvFlags :=
  if c == 35 then if f.alt then .error (.duplicateFlag c) else .ok { f with alt := true }
  else if c == 48 then if f.pad_zero then .error (.duplicateFlag c) else .ok { f with pad_zero := true }
  else if c == 45 then if f.adj_left then .error (.duplicateFlag c) else .ok { f with adj_left := true }
  else if c == 32 then if f.pos_space then .error (.duplicateFlag c) else .ok { f with pos_space := true }
  else if c == 43 then if f.force_sign then .error (.duplicateFlag c) else .ok { f with force_sign := true }
  else if c == 39 then if f.comma_groups then .error (.duplicateFlag c) else .ok { f with comma_groups := true }
  else if c == 73 then if f.alt_digits then .error (.duplicateFlag c) else .ok { f with alt_digits := true }
  else .error (.unknownFlag c)

/-- high.rs `ConvFlags::from_bytes`. -/
def ConvFlags.fromBytes (b : List Nat) : Except ParseError ConvFlags :=
  b.foldlM ConvFlags.setFlag {}

/-- high.rs `ConvFlags::is_supported`. -/
def ConvFlags.isSupported (f : ConvFlags) : Bool :=
  !f.alt_digits && !f.comma_groups

/-- Model constant: `usize::MAX` on the (64-bit) target. -/
def USIZE_MAX : Nat := 2 ^ 64 - 1

/-- Value of a big-endian decimal digit string. -/
def decodeDec (l : List Nat) : Nat :=
  l.foldl (fun a c => a * 10 + (c - 48)) 0

/-- Rust `str::parse::<usize>`: an optional leading `+`, then a nonempty
run of ASCII digits whose value fits in `usize`. -/
def parseUsize (b : List Nat) : Option Nat :=
  let b' := match b with
    | 43 :: rest => rest
    | _ => b
  if !b'.isEmpty && b'.all isDigitB && decodeDec b' ≤ USIZE_MAX then some (decodeDec b')
  else Option.none

/-- high.rs `ParsedConversionSpecification`. -/
structure ParsedConversionSpecification where
  conv_kind : ConvKind
  flags : ConvFlags
  len_modifier : LenModifier
  min_width : Nat
  prec : Option Nat
deriving DecidableEq, Repr

/-- high.rs `ParsedConversionSpecification::try_parse`, in the source's
evaluation order: specifier, flags, length modifier, field width,
precision. -/
def tryParse (spec : RawSpecEvent) : Except ParseError ParsedConversionSpecification := do
  let specifier ← match ConvKind.fromBytes spec.specifier with
    | some k => Except.ok k
    | Option.none =>
      Except.error (if spec.specifier.isEmpty then ParseError.missingSpecifier
        else ParseError.unknownSpecifier)
  let flags ← ConvFlags.fromBytes spec.flags
  let lenMod ← LenModifier.fromBytes spec.length
  let minWidth ←
    if spec.fieldWidth.isEmpty then Except.ok 0
    else match parseUsize spec.fieldWidth with
      | some w => Except.ok w
      | Option.none => Except.error ParseError.invalidWidth
  let prec ←
    if spec.precision.isEmpty then Except.ok Option.none
    else if spec.precision.headD 0 != 46 then Except.error ParseError.invalidPrec
    else match parseUsize (spec.precision.drop 1) with
      | some p => Except.ok (some p)
      | Option.none => Except.error ParseError.invalidPrec
  Except.ok ⟨specifier, flags, lenMod, minWidth, prec⟩

/-- high.rs `ParsedConversionSpecification::is_supported`. -/
def ParsedConversionSpecification.isSupported (p : ParsedConversionSpecification) : Bool :=
  p.flags.isSupported

/-! ### Formatting engine (format.rs, lib.rs) -/

/-- format.rs `FormatToError` (the `Sink` payload — the sink's own error
type — is dropped; `FormatError` in lib.rs is an alias of this type). -/
inductive FormatToError where
  | sink
  | spec (e : ParseError)
  | excessArgs
  | notEnoughArguments
  | unsupported
  | badType
  | invalid
  | numOverflow
deriving DecidableEq, Repr

/-- lib.rs `Value`: a 128-bit signed integer or a byte string.  The
integer is modelled as unbounded `Int`; a Rust caller can only supply
values in the `i128` range. -/
inductive Value where
  | int (x : Int)
  | str (b : List Nat)
deriving DecidableEq, Repr

/-- Sink oracle: from the bytes already written and the next chunk,
whether `BinSink::put` succeeds.  On success the chunk is appended. -/
def Sink : Type := List Nat → List Nat → Bool

/-- The infallible `VecSink` of lib.rs. -/
def vecSink : Sink := fun _ _ => true

/-- format.rs `Formatter` state: bytes written so far, the argument
list, the latched error, and the argument cursor. -/
structure Formatter where
  out : List Nat
  args : List Value
  error : Option FormatToError
  nextArg : Nat
deriving DecidableEq, Repr

/-- `Formatter::had_error`. -/
def Formatter.hadError (f : Formatter) : Bool := f.error.isSome

/-- `Formatter::call_handler`: one `sink.put`, latching `Sink` on failure;
the returned flag mirrors the `#[must_use] bool`. -/
def callHandler (S : Sink) (f : Formatter) (b : List Nat) : Formatter × Bool :=
  if S f.out b then ({ f with out := f.out ++ b }, true)
  else ({ f with error := some .sink }, false)

/-- `Formatter::write_padding`: `cnt` single-byte `put` calls, stopping at
the first failure. -/
def writePadding (S : Sink) (f : Formatter) (c : Nat) : Nat → Formatter × Bool
  | 0 => (f, true)
  | n + 1 =>
    let p := callHandler S f [c]
    if p.2 then writePadding S p.1 c n else (p.1, false)

/-- Padding width chosen by `Formatter::write_data`. -/
def padSize (sp : ParsedConversionSpecification) (dataLen : Nat) : Nat :=
  if dataLen < sp.min_width then sp.min_width - dataLen else 0

/-- Padding byte chosen by `Formatter::write_data`: `'0'` under the
zero-pad flag, else space. -/
def padChar (sp : ParsedConversionSpecification) : Nat :=
  if sp.flags.pad_zero then 48 else 32

/-- `Formatter::write_data`: padding before the data unless the
left-adjust flag is set, in which case after. -/
def writeData (S : Sink) (f : Formatter) (data : List Nat)
    (sp : ParsedConversionSpecification) : Formatter :=
  let psize := padSize sp data.length
  let c := padChar sp
  if sp.flags.adj_left then
    let p := callHandler S f data
    if p.2 then (writePadding S p.1 c psize).1 else p.1
  else
    let p := writePadding S f c psize
    if p.2 then (callHandler S p.1 data).1 else p.1

/-- Model constant: pointer width of the (64-bit) target, fixing
`isize` in `format_int`. -/
def PTR_BITS : Nat := 64

/-- The inclusive signed bound pair `format_int` derives from the length
modifier; `Option.none` for the unimplemented `L` and `t` modifiers. -/
def intBounds : LenModifier → Option (Int × Int)
  | .shorter => some (-(2 ^ 7), 2 ^ 7 - 1)
  | .short => some (-(2 ^ 15), 2 ^ 15 - 1)
  | .none => some (-(2 ^ 31), 2 ^ 31 - 1)
  | .long => some (-(2 ^ 63), 2 ^ 63 - 1)
  | .longer => some (-(2 ^ 63), 2 ^ 63 - 1)
  | .longest => some (-(2 ^ 127), 2 ^ 127 - 1)
  | .size => some (-(2 ^ (PTR_BITS - 1)), 2 ^ (PTR_BITS - 1) - 1)
  | .longDouble => Option.none
  | .ptrDiff => Option.none

/-- Big-endian decimal digit bytes of `n`, no leading zeros (`"0"` for 0).
Structural recursion on fuel; `natDigits` supplies fuel `n + 1`, which
exceeds the number of division steps, so the empty fuel-exhausted
answer is unreachable. -/
def natDigitsF : Nat → Nat → List Nat
  | 0, _ => []
  | fuel + 1, n => if n < 10 then [48 + n] else natDigitsF fuel (n / 10) ++ [48 + n % 10]

/-- Decimal digit bytes of a natural number. -/
def natDigits (n : Nat) : List Nat := natDigitsF (n + 1) n

/-- The `itoa` rendering used by `format_int`: minimal decimal text, a
leading `'-'` exactly for negative values. -/
def sdec (x : Int) : List Nat :=
  if x < 0 then 45 :: natDigits x.natAbs else natDigits x.natAbs

/-- `Formatter::format_int`. -/
def formatInt (S : Sink) (f : Formatter) (x : Int)
    (sp : ParsedConversionSpecification) : Formatter :=
  match sp.conv_kind with
  | .string => { f with error := some .badType }
  | .signDecInt =>
    match intBounds sp.len_modifier with
    | Option.none => { f with error := some .unsupported }
    | some (lo, hi) =>
      if x < lo ∨ hi < x then { f with error := some .numOverflow }
      else writeData S f (sdec x) sp

/-- `Formatter::format_bytes`. -/
def formatBytes (S : Sink) (f : Formatter) (b : List Nat)
    (sp : ParsedConversionSpecification) : Formatter :=
  match sp.conv_kind with
  | .signDecInt => { f with error := some .badType }
  | .string =>
    if sp.flags.alt || sp.flags.pad_zero || sp.flags.comma_groups || sp.flags.alt_digits then
      { f with error := some .invalid }
    else
      let prec := sp.prec.getD b.length
      let writePart := b.take (min b.length prec)
      writeData S f writePart sp

/-- `Formatter::format`: latch `NotEnoughArguments` at the cursor guard,
else consume the next argument and dispatch on its kind. -/
def formatArg (S : Sink) (f : Formatter)
    (sp : ParsedConversionSpecification) : Formatter :=
  if f.nextArg == f.args.length then { f with error := some .notEnoughArguments }
  else
    let f' := { f with nextArg := f.nextArg + 1 }
    match f.args.getD f.nextArg (.int 0) with
    | .int x => formatInt S f' x sp
    | .str b => formatBytes S f' b sp

/-- `Formatter::visit_bytes`: no-op once an error is latched, else one
`sink.put`. -/
def stepBytes (S : Sink) (f : Formatter) (b : List Nat) : Formatter :=
  if f.hadError then f
  else if S f.out b then { f with out := f.out ++ b }
  else { f with error := some .sink }

/-- `Formatter::visit_specification`: no-op once an error is latched,
else parse, gate on support, and format. -/
def stepSpec (S : Sink) (f : Formatter) (r : RawSpecEvent) : Formatter :=
  if f.hadError then f
  else match tryParse r with
    | .error e => { f with error := some (.spec e) }
    | .ok hi =>
      if !hi.isSupported then { f with error := some .unsupported }
      else formatArg S f hi

/-- One visitor callback.  `Formatter` does not override
`visit_escaped_percent`, so the visit.rs default forwards it to
`visit_bytes(b"%")`. -/
def stepEvent (S : Sink) (f : Formatter) : Event → Formatter
  | .bytes b => stepBytes S f b
  | .escapedPercent => stepBytes S f [37]
  | .spec r => stepSpec S f r

/-- Deliver a list of visitor events to the formatter. -/
def runEvents (S : Sink) (evs : List Event) (f : Formatter) : Formatter :=
  evs.foldl (stepEvent S) f

/-- lib.rs `format_to`: drive `do_visit` over the template with a fresh
`Formatter`; the final state holds the output and the latched error. -/
def formatTo (S : Sink) (t : List Nat) (args : List Value) : Formatter :=
  runEvents S (doVisit t) ⟨[], args, Option.none, 0⟩

deriving instance DecidableEq for Except

/-- Result of `format_to` as the source returns it: the latched error if
any, otherwise success (paired here with the rendered bytes, as `format`
in lib.rs returns them via `VecSink`). -/
def formatResult (S : Sink) (t : List Nat) (args : List Value) :
    Except FormatToError (List Nat) :=
  let f := formatTo S t args
  match f.error with
  | some e => .error e
  | Option.none => .ok f.out

/-- Whether a latched-error cell holds the `ExcessArgs` value. -/
def isExcessO : Option FormatToError → Bool
  | some .excessArgs => true
  | _ => false

/-! ### Basic lemmas about the tokenizer primitives -/

theorem takeRunAux_ge (p : Nat → Bool) : ∀ (l : List Nat) (i : Nat), i ≤ takeRunAux p l i := by
  intro l
  induction l with
  | nil => intro i; simp [takeRunAux]
  | cons c rest ih =>
    intro i
    unfold takeRunAux
    split
    · exact Nat.le_trans (Nat.le_succ i) (ih (i + 1))
    · exact Nat.le_refl i

theorem takeRun_ge (p : Nat → Bool) (s : List Nat) (i : Nat) : i ≤ takeRun p s i :=
  takeRunAux_ge p (s.drop i) i

theorem takeRun_stop (p : Nat → Bool) (s : List Nat) (i : Nat)
    (h : ¬(i < s.length ∧ p (charAt s i) = true)) : takeRun p s i = i := by
  cases hd : s.drop i with
  | nil => unfold takeRun; rw [hd]; rfl
  | cons c rest =>
    have hlen : i < s.length := by
      by_contra hle
      rw [List.drop_eq_nil_of_le (by omega)] at hd
      cases hd
    have hc : charAt s i = c := by rw [charAt, hd]; rfl
    have hp : p c = false := by
      rcases Bool.eq_false_or_eq_true (p c) with h' | h'
      · exact absurd ⟨hlen, by rw [hc]; exact h'⟩ h
      · exact h'
    unfold takeRun
    rw [hd]
    unfold takeRunAux
    rw [hp]
    simp

theorem scanSpec_ge (s : List Nat) (i : Nat) : i ≤ (scanSpec s i).2 := by
  have h0 : (scanSpec s i).2 = takeRun isConvSpecB s
      (takeRun isLenModB s (takeRun isPrecB s (takeRun isDigitB s (takeRun isFlagB s i)))) := rfl
  rw [h0]
  have h1 := takeRun_ge isFlagB s i
  have h2 := takeRun_ge isDigitB s (takeRun isFlagB s i)
  have h3 := takeRun_ge isPrecB s (takeRun isDigitB s (takeRun isFlagB s i))
  have h4 := takeRun_ge isLenModB s
    (takeRun isPrecB s (takeRun isDigitB s (takeRun isFlagB s i)))
  have h5 := takeRun_ge isConvSpecB s
    (takeRun isLenModB s (takeRun isPrecB s (takeRun isDigitB s (takeRun isFlagB s i))))
  omega

theorem charAt_cons_succ (a : Nat) (s : List Nat) (i : Nat) :
    charAt (a :: s) (i + 1) = charAt s i := by
  simp [charAt]

theorem charAt_mem : ∀ (s : List Nat) (i : Nat), i < s.length → charAt s i ∈ s := by
  intro s
  induction s with
  | nil => simp
  | cons a s ih =>
    intro i hi
    cases i with
    | zero => simp [charAt]
    | succ i =>
      rw [charAt_cons_succ]
      exact List.mem_cons_of_mem _ (ih i (by simpa using hi))

theorem slice_self (s : List Nat) (a : Nat) : slice s a a = [] := by
  apply List.drop_eq_nil_of_le
  simp

/-! ### Lemmas about the formatter -/

theorem runEvents_nil (S : Sink) (f : Formatter) : runEvents S [] f = f := rfl

theorem runEvents_cons (S : Sink) (e : Event) (evs : List Event) (f : Formatter) :
    runEvents S (e :: evs) f = runEvents S evs (stepEvent S f e) := rfl

theorem stepEvent_of_some (S : Sink) (f : Formatter) (ev : Event) (e : FormatToError)
    (h : f.error = some e) : stepEvent S f ev = f := by
  have hb : f.hadError = true := by simp [Formatter.hadError, h]
  cases ev <;> simp [stepEvent, stepBytes, stepSpec, hb]

theorem runEvents_of_some (S : Sink) (evs : List Event) (f : Formatter) (e : FormatToError)
    (h : f.error = some e) : runEvents S evs f = f := by
  induction evs with
  | nil => rfl
  | cons ev evs ih => rw [runEvents_cons, stepEvent_of_some S f ev e h, ih]

theorem callHandler_frame (S : Sink) (f : Formatter) (b : List Nat) :
    (callHandler S f b).1.args = f.args ∧ (callHandler S f b).1.nextArg = f.nextArg := by
  simp only [callHandler]
  split <;> simp

theorem writePadding_frame (S : Sink) (c : Nat) :
    ∀ (n : Nat) (f : Formatter),
      (writePadding S f c n).1.args = f.args ∧ (writePadding S f c n).1.nextArg = f.nextArg := by
  intro n
  induction n with
  | zero => intro f; simp [writePadding]
  | succ n ih =>
    intro f
    simp only [writePadding]
    have hc := callHandler_frame S f [c]
    split
    · have := ih (callHandler S f [c]).1
      exact ⟨this.1.trans hc.1, this.2.trans hc.2⟩
    · exact hc

theorem writeData_frame (S : Sink) (f : Formatter) (data : List Nat)
    (sp : ParsedConversionSpecification) :
    (writeData S f data sp).args = f.args ∧ (writeData S f data sp).nextArg = f.nextArg := by
  simp only [writeData]
  have hc := callHandler_frame S f data
  have hp := writePadding_frame S (padChar sp) (padSize sp data.length) f
  split
  · split
    · have h2 := writePadding_frame S (padChar sp) (padSize sp data.length) (callHandler S f data).1
      exact ⟨h2.1.trans hc.1, h2.2.trans hc.2⟩
    · exact hc
  · split
    · have h2 := callHandler_frame S (writePadding S f (padChar sp) (padSize sp data.length)).1 data
      exact ⟨h2.1.trans hp.1, h2.2.trans hp.2⟩
    · exact hp

theorem formatInt_frame (S : Sink) (f : Formatter) (x : Int)
    (sp : ParsedConversionSpecification) :
    (formatInt S f x sp).args = f.args ∧ (formatInt S f x sp).nextArg = f.nextArg := by
  simp only [formatInt]
  split
  · simp
  · split
    · simp
    · split
      · simp
      · exact writeData_frame S f (sdec x) sp

theorem formatBytes_frame (S : Sink) (f : Formatter) (b : List Nat)
    (sp : ParsedConversionSpecification) :
    (formatBytes S f b sp).args = f.args ∧ (formatBytes S f b sp).nextArg = f.nextArg := by
  simp only [formatBytes]
  split
  · simp
  · split
    · simp
    · exact writeData_frame S f (b.take (min b.length (sp.prec.getD b.length))) sp

theorem formatArg_args (S : Sink) (f : Formatter) (sp : ParsedConversionSpecification) :
    (formatArg S f sp).args = f.args := by
  simp only [formatArg]
  split
  · simp
  · split
    · exact (formatInt_frame S _ _ sp).1
    · exact (formatBytes_frame S _ _ sp).1

theorem formatArg_nextArg (S : Sink) (f : Formatter) (sp : ParsedConversionSpecification) :
    (formatArg S f sp).nextArg = f.nextArg ∨
      (f.nextArg ≠ f.args.length ∧ (formatArg S f sp).nextArg = f.nextArg + 1) := by
  simp only [formatArg]
  split
  · left; simp
  · right
    rename_i hne
    refine ⟨by simpa using hne, ?_⟩
    split
    · exact (formatInt_frame S _ _ sp).2
    · exact (formatBytes_frame S _ _ sp).2

theorem stepBytes_args (S : Sink) (f : Formatter) (b : List Nat) :
    (stepBytes S f b).args = f.args := by
  simp only [stepBytes]
  split
  · rfl
  · split <;> rfl

theorem stepBytes_nextArg (S : Sink) (f : Formatter) (b : List Nat) :
    (stepBytes S f b).nextArg = f.nextArg := by
  simp only [stepBytes]
  split
  · rfl
  · split <;> rfl

theorem stepSpec_args (S : Sink) (f : Formatter) (r : RawSpecEvent) :
    (stepSpec S f r).args = f.args := by
  simp only [stepSpec]
  split
  · rfl
  · split
    · rfl
    · split
      · rfl
      · exact formatArg_args S f _

theorem stepSpec_nextArg_or (S : Sink) (f : Formatter) (r : RawSpecEvent) :
    (stepSpec S f r).nextArg = f.nextArg ∨
      (f.nextArg ≠ f.args.length ∧ (stepSpec S f r).nextArg = f.nextArg + 1) := by
  simp only [stepSpec]
  split
  · left; rfl
  · split
    · left; rfl
    · split
      · left; rfl
      · exact formatArg_nextArg S f _

theorem stepEvent_args (S : Sink) (f : Formatter) (ev : Event) :
    (stepEvent S f ev).args = f.args := by
  cases ev with
  | bytes b => exact stepBytes_args S f b
  | escapedPercent => exact stepBytes_args S f [37]
  | spec r => exact stepSpec_args S f r

theorem stepEvent_nextArg_le (S : Sink) (f : Formatter) (ev : Event)
    (h : f.nextArg ≤ f.args.length) :
    (stepEvent S f ev).nextArg ≤ f.args.length := by
  cases ev with
  | bytes b => rw [show stepEvent S f (.bytes b) = stepBytes S f b from rfl, stepBytes_nextArg]; exact h
  | escapedPercent => rw [show stepEvent S f .escapedPercent = stepBytes S f [37] from rfl, stepBytes_nextArg]; exact h
  | spec r =>
    rcases stepSpec_nextArg_or S f r with h' | h' <;>
      rw [show stepEvent S f (.spec r) = stepSpec S f r from rfl] <;> omega

theorem runEvents_args (S : Sink) : ∀ (evs : List Event) (f : Formatter),
    (runEvents S evs f).args = f.args := by
  intro evs
  induction evs with
  | nil => intro f; rfl
  | cons e evs ih =>
    intro f
    rw [runEvents_cons, ih, stepEvent_args]

theorem runEvents_nextArg_le (S : Sink) : ∀ (evs : List Event) (f : Formatter),
    f.nextArg ≤ f.args.length → (runEvents S evs f).nextArg ≤ f.args.length := by
  intro evs
  induction evs with
  | nil => intro f h; exact h
  | cons e evs ih =>
    intro f h
    rw [runEvents_cons]
    have h1 := stepEvent_nextArg_le S f e h
    have h2 := stepEvent_args S f e
    have h3 := ih (stepEvent S f e) (by rw [h2]; exact h1)
    rw [h2] at h3
    exact h3

theorem formatArg_of_error_none (S : Sink) (f : Formatter) (sp : ParsedConversionSpecification)
    (h : (formatArg S f sp).error = Option.none) :
    (formatArg S f sp).nextArg = f.nextArg + 1 := by
  revert h
  simp only [formatArg]
  split
  · intro h; simp at h
  · split
    · intro _; exact (formatInt_frame S _ _ _).2
    · intro _; exact (formatBytes_frame S _ _ _).2

theorem stepSpec_of_error_none (S : Sink) (f : Formatter) (r : RawSpecEvent)
    (h : (stepSpec S f r).error = Option.none) :
    (stepSpec S f r).nextArg = f.nextArg + 1 := by
  revert h
  simp only [stepSpec]
  split
  · rename_i hhe
    intro h
    simp [Formatter.hadError, h] at hhe
  · split
    · intro h; simp at h
    · split
      · intro h; simp at h
      · exact formatArg_of_error_none S f _

theorem stepEvent_count (S : Sink) (f : Formatter) (ev : Event)
    (h : (stepEvent S f ev).error = Option.none) :
    (stepEvent S f ev).nextArg = f.nextArg + (if ev.isSpec then 1 else 0) := by
  cases ev with
  | bytes b => simp [Event.isSpec, stepEvent, stepBytes_nextArg]
  | escapedPercent => simp [Event.isSpec, stepEvent, stepBytes_nextArg]
  | spec r =>
    simp only [Event.isSpec, if_pos]
    exact stepSpec_of_error_none S f r h

theorem runEvents_count (S : Sink) : ∀ (evs : List Event) (f : Formatter),
    (runEvents S evs f).error = Option.none →
      (runEvents S evs f).nextArg = f.nextArg + countSpecs evs := by
  intro evs
  induction evs with
  | nil => intro f _; simp [runEvents_nil, countSpecs]
  | cons e evs ih =>
    intro f h
    rw [runEvents_cons] at h ⊢
    have hstep : (stepEvent S f e).error = Option.none := by
      cases hs : (stepEvent S f e).error with
      | none => rfl
      | some e' =>
        rw [runEvents_of_some S evs _ e' hs] at h
        rw [h] at hs
        cases hs
    rw [ih _ h, stepEvent_count S f e hstep]
    simp only [countSpecs, List.countP_cons]
    cases he : e.isSpec
    · simp [he]
    · simp [he]
      omega

/-! ### Behaviour under the infallible sink -/

theorem callHandler_vecSink (f : Formatter) (b : List Nat) :
    callHandler vecSink f b = ({ f with out := f.out ++ b }, true) := rfl

theorem writePadding_vecSink (c : Nat) : ∀ (n : Nat) (f : Formatter),
    writePadding vecSink f c n = ({ f with out := f.out ++ List.replicate n c }, true) := by
  intro n
  induction n with
  | zero => intro f; simp [writePadding]
  | succ n ih =>
    intro f
    simp [writePadding, callHandler_vecSink, ih, List.replicate_succ, List.append_assoc]

theorem writeData_vecSink (f : Formatter) (data : List Nat)
    (sp : ParsedConversionSpecification) :
    writeData vecSink f data sp =
      { f with out := f.out ++ (if sp.flags.adj_left then
          data ++ List.replicate (padSize sp data.length) (padChar sp)
        else List.replicate (padSize sp data.length) (padChar sp) ++ data) } := by
  cases h : sp.flags.adj_left <;>
    simp [writeData, h, callHandler_vecSink, writePadding_vecSink, List.append_assoc]

/-! ### The ExcessArgs variant is never produced -/

theorem exc_callHandler (S : Sink) (f : Formatter) (b : List Nat)
    (h : isExcessO f.error = false) : isExcessO (callHandler S f b).1.error = false := by
  simp only [callHandler]
  split
  · simpa
  · simp [isExcessO]

theorem exc_writePadding (S : Sink) (c : Nat) : ∀ (n : Nat) (f : Formatter),
    isExcessO f.error = false → isExcessO (writePadding S f c n).1.error = false := by
  intro n
  induction n with
  | zero => intro f h; simpa [writePadding]
  | succ n ih =>
    intro f h
    simp only [writePadding]
    split
    · exact ih _ (exc_callHandler S f [c] h)
    · exact exc_callHandler S f [c] h

theorem exc_writeData (S : Sink) (f : Formatter) (data : List Nat)
    (sp : ParsedConversionSpecification) (h : isExcessO f.error = false) :
    isExcessO (writeData S f data sp).error = false := by
  simp only [writeData]
  split
  · split
    · exact exc_writePadding S _ _ _ (exc_callHandler S f data h)
    · exact exc_callHandler S f data h
  · split
    · exact exc_callHandler S _ data (exc_writePadding S _ _ f h)
    · exact exc_writePadding S _ _ f h

theorem exc_formatInt (S : Sink) (f : Formatter) (x : Int)
    (sp : ParsedConversionSpecification) (h : isExcessO f.error = false) :
    isExcessO (formatInt S f x sp).error = false := by
  simp only [formatInt]
  split
  · simp [isExcessO]
  · split
    · simp [isExcessO]
    · split
      · simp [isExcessO]
      · exact exc_writeData S f _ sp h

theorem exc_formatBytes (S : Sink) (f : Formatter) (b : List Nat)
    (sp : ParsedConversionSpecification) (h : isExcessO f.error = false) :
    isExcessO (formatBytes S f b sp).error = false := by
  simp only [formatBytes]
  split
  · simp [isExcessO]
  · split
    · simp [isExcessO]
    · exact exc_writeData S f _ sp h

theorem exc_formatArg (S : Sink) (f : Formatter) (sp : ParsedConversionSpecification)
    (h : isExcessO f.error = false) : isExcessO (formatArg S f sp).error = false := by
  simp only [formatArg]
  split
  · simp [isExcessO]
  · split
    · exact exc_formatInt S _ _ sp h
    · exact exc_formatBytes S _ _ sp h

theorem exc_stepBytes (S : Sink) (f : Formatter) (b : List Nat)
    (h : isExcessO f.error = false) : isExcessO (stepBytes S f b).error = false := by
  simp only [stepBytes]
  split
  · exact h
  · split
    · simpa
    · simp [isExcessO]

theorem exc_stepSpec (S : Sink) (f : Formatter) (r : RawSpecEvent)
    (h : isExcessO f.error = false) : isExcessO (stepSpec S f r).error = false := by
  simp only [stepSpec]
  split
  · exact h
  · split
    · simp [isExcessO]
    · split
      · simp [isExcessO]
      · exact exc_formatArg S f _ h

theorem exc_stepEvent (S : Sink) (f : Formatter) (ev : Event)
    (h : isExcessO f.error = false) : isExcessO (stepEvent S f ev).error = false := by
  cases ev with
  | bytes b => exact exc_stepBytes S f b h
  | escapedPercent => exact exc_stepBytes S f [37] h
  | spec r => exact exc_stepSpec S f r h

theorem exc_runEvents (S : Sink) : ∀ (evs : List Event) (f : Formatter),
    isExcessO f.error = false → isExcessO (runEvents S evs f).error = false := by
  intro evs
  induction evs with
  | nil => intro f h; exact h
  | cons e evs ih =>
    intro f h
    rw [runEvents_cons]
    exact ih _ (exc_stepEvent S f e h)

/-! ### Decimal rendering -/

theorem decodeDec_append (l : List Nat) (c : Nat) :
    decodeDec (l ++ [c]) = decodeDec l * 10 + (c - 48) := by
  simp [decodeDec, List.foldl_append]

theorem natDigitsF_ne_nil (fuel n : Nat) (h : n < fuel) : natDigitsF fuel n ≠ [] := by
  cases fuel with
  | zero => omega
  | succ fuel =>
    simp only [natDigitsF]
    split
    · simp
    · simp

theorem natDigitsF_decode : ∀ (fuel n : Nat), n < fuel → decodeDec (natDigitsF fuel n) = n := by
  intro fuel
  induction fuel with
  | zero => intro n h; omega
  | succ fuel ih =>
    intro n h
    simp only [natDigitsF]
    split
    · simp [decodeDec]
    · rw [decodeDec_append, ih (n / 10) (by omega)]
      omega

theorem natDigits_decode (n : Nat) : decodeDec (natDigits n) = n :=
  natDigitsF_decode (n + 1) n (by omega)

theorem headD_append_left (l l2 : List Nat) (d : Nat) (h : l ≠ []) :
    (l ++ l2).headD d = l.headD d := by
  cases l with
  | nil => exact absurd rfl h
  | cons a l => simp

theorem natDigitsF_head : ∀ (fuel n : Nat), n < fuel → n ≠ 0 →
    (natDigitsF fuel n).headD 0 ≠ 48 := by
  intro fuel
  induction fuel with
  | zero => intro n h; omega
  | succ fuel ih =>
    intro n h hn
    simp only [natDigitsF]
    split
    · simpa using by omega
    · rw [headD_append_left _ _ _ (natDigitsF_ne_nil fuel (n / 10) (by omega))]
      exact ih (n / 10) (by omega) (by omega)

theorem natDigits_head (n : Nat) (hn : n ≠ 0) : (natDigits n).headD 0 ≠ 48 :=
  natDigitsF_head (n + 1) n (by omega) hn

theorem sdec_neg (x : Int) (h : x < 0) : sdec x = 45 :: natDigits x.natAbs := by
  rw [sdec, if_pos h]

theorem sdec_nonneg (x : Int) (h : 0 ≤ x) : sdec x = natDigits x.natAbs := by
  rw [sdec, if_neg (by omega)]

/-! ### Scanner unfolding lemmas -/

theorem class_not_conv (c : Nat)
    (h : isFlagB c = true ∨ isDigitB c = true ∨ c = 46 ∨ isLenModB c = true) :
    isConvSpecB c = false := by
  rcases h with h | h | h | h
  · simp only [isFlagB, Bool.or_eq_true, beq_iff_eq] at h
    rcases h with ((((((rfl | rfl) | rfl) | rfl) | rfl) | rfl) | rfl) <;> decide
  · simp only [isDigitB, Bool.and_eq_true, decide_eq_true_eq] at h
    simp only [isConvSpecB, Bool.or_eq_false_iff, beq_eq_false_iff_ne, ne_eq]
    omega
  · subst h; decide
  · simp only [isLenModB, Bool.or_eq_true, beq_iff_eq] at h
    rcases h with (((((((rfl | rfl) | rfl) | rfl) | rfl) | rfl) | rfl) | rfl) <;> decide

theorem class_not_percent (c : Nat)
    (h : isFlagB c = true ∨ isDigitB c = true ∨ c = 46 ∨ isLenModB c = true) :
    c ≠ 37 := by
  rcases h with h | h | h | h
  · simp only [isFlagB, Bool.or_eq_true, beq_iff_eq] at h
    omega
  · simp only [isDigitB, Bool.and_eq_true, decide_eq_true_eq] at h
    omega
  · omega
  · simp only [isLenModB, Bool.or_eq_true, beq_iff_eq] at h
    omega

theorem tryParse_empty_specifier (r : RawSpecEvent) (h : r.specifier = []) :
    tryParse r = .error .missingSpecifier := by
  unfold tryParse
  rw [h]
  rfl

theorem doVisitF_none_on_percent (s : List Nat) (fuel i : Nat) (hi : i < s.length)
    (hc : charAt s i = 37) :
    doVisitF s (fuel + 1) i .none = doVisitF s fuel (i + 1) .percent := by
  simp only [doVisitF]
  rw [if_pos hi]
  simp [hc]

theorem doVisitF_percent_spec (s : List Nat) (fuel i : Nat) (hi : i < s.length)
    (hc : charAt s i ≠ 37) :
    doVisitF s (fuel + 1) i .percent =
      Event.spec (scanSpec s i).1 ::
        doVisitF s fuel ((scanSpec s i).2 + 1)
          (if (scanSpec s i).2 == s.length then ScanState.none
           else ScanState.string (scanSpec s i).2) := by
  simp only [doVisitF]
  rw [if_pos hi]
  simp [hc]

theorem scanSpec_specifier_empty (s : List Nat) (i : Nat) (hi : 1 ≤ i)
    (hnc : ∀ j, 1 ≤ j → j < s.length → isConvSpecB (charAt s j) = false) :
    (scanSpec s i).1.specifier = [] := by
  have h1 := takeRun_ge isFlagB s i
  have h2 := takeRun_ge isDigitB s (takeRun isFlagB s i)
  have h3 := takeRun_ge isPrecB s (takeRun isDigitB s (takeRun isFlagB s i))
  have h4 := takeRun_ge isLenModB s
    (takeRun isPrecB s (takeRun isDigitB s (takeRun isFlagB s i)))
  have hspec : (scanSpec s i).1.specifier =
      slice s
        (takeRun isLenModB s (takeRun isPrecB s (takeRun isDigitB s (takeRun isFlagB s i))))
        (takeRun isConvSpecB s
          (takeRun isLenModB s (takeRun isPrecB s (takeRun isDigitB s (takeRun isFlagB s i))))) :=
    rfl
  have hd1 : 1 ≤ takeRun isLenModB s
      (takeRun isPrecB s (takeRun isDigitB s (takeRun isFlagB s i))) := by omega
  have he : takeRun isConvSpecB s
      (takeRun isLenModB s (takeRun isPrecB s (takeRun isDigitB s (takeRun isFlagB s i)))) =
      takeRun isLenModB s (takeRun isPrecB s (takeRun isDigitB s (takeRun isFlagB s i))) := by
    apply takeRun_stop
    rintro ⟨hdl, hp⟩
    rw [hnc _ hd1 hdl] at hp
    cases hp
  rw [hspec, he, slice_self]

/-! ## The claims -/

/-- C1: the claim states that every `%` byte not consumed as the second
half of a `%%` pair begins a new token, and in particular that `%d%d`
produces two specification events.  The code disagrees: after a
conversion specification ends at index `end`, `do_visit` resumes in
`String(end)` state but the trailing `i += 1` of the `while` loop skips
the byte at `end`, so a `%` located there is swallowed into the literal
run.  On `%d%d` the tokenizer emits one specification event followed by
the literal bytes `%d`, and the full pass renders `1%d` (consuming one
argument) instead of two conversions. -/
theorem c1_percent_after_spec_skipped :
    doVisit [37, 100, 37, 100] =
      [Event.spec ⟨[], [], [], [], [100]⟩, Event.bytes [37, 100]] ∧
    countSpecs (doVisit [37, 100, 37, 100]) = 1 ∧
    formatResult vecSink [37, 100, 37, 100] [.int 1, .int 2] = .ok [49, 37, 100] := by
  decide

/-- C2 (counterexample): the claim asserts that a template whose final
byte is the introducing `%` still yields a raw specification with empty
specifier and the pass fails with `Spec(MissingSpecifier)`.  On the
template `"%"` the scanner ends in `Percent` state, which the final
flush of `do_visit` silently drops: no event at all is delivered and
the pass succeeds with empty output. -/
theorem c2_counterexample :
    doVisit [37] = [] ∧ formatResult vecSink [37] [] = .ok [] := by
  decide

/-- C2 (amended): when at least one byte follows the introducing `%` and
the scan never meets a conversion-specifier byte (every following byte
is a flag, digit, dot or length-modifier byte, so the specifier field is
force-closed empty — in particular when end-of-input is reached), the
tokenizer still delivers a raw specification whose specifier field is
empty, and the pass fails with `Spec(MissingSpecifier)`.  The case of a
template ending in the bare `%` itself is excluded: there no event is
delivered at all. -/
theorem c2_amended_eof_missing_specifier (S : Sink) (args : List Value) (u : List Nat)
    (hu : u ≠ [])
    (hcl : ∀ c ∈ u, isFlagB c = true ∨ isDigitB c = true ∨ c = 46 ∨ isLenModB c = true) :
    (∃ r rest, doVisit (37 :: u) = Event.spec r :: rest ∧ r.specifier = []) ∧
    (formatTo S (37 :: u) args).error = some (.spec .missingSpecifier) := by
  obtain ⟨c0, u', rfl⟩ := List.exists_cons_of_ne_nil hu
  have hc1 : charAt (37 :: c0 :: u') 1 = c0 := rfl
  have h1lt : 1 < (37 :: c0 :: u').length := by simp
  have hc0cl := hcl c0 (by simp)
  have hc0ne : charAt (37 :: c0 :: u') 1 ≠ 37 := by
    rw [hc1]
    exact class_not_percent c0 hc0cl
  have e1 : doVisit (37 :: c0 :: u') =
      doVisitF (37 :: c0 :: u') (37 :: c0 :: u').length 1 .percent := by
    rw [doVisit]
    exact doVisitF_none_on_percent _ _ 0 (by simp) rfl
  have e2 : doVisitF (37 :: c0 :: u') (37 :: c0 :: u').length 1 .percent =
      Event.spec (scanSpec (37 :: c0 :: u') 1).1 ::
        doVisitF (37 :: c0 :: u') (u'.length + 1) ((scanSpec (37 :: c0 :: u') 1).2 + 1)
          (if (scanSpec (37 :: c0 :: u') 1).2 == (37 :: c0 :: u').length then ScanState.none
           else ScanState.string (scanSpec (37 :: c0 :: u') 1).2) := by
    rw [show (37 :: c0 :: u').length = (u'.length + 1) + 1 by simp]
    exact doVisitF_percent_spec _ (u'.length + 1) 1 h1lt hc0ne
  have hspec : (scanSpec (37 :: c0 :: u') 1).1.specifier = [] := by
    apply scanSpec_specifier_empty _ _ (Nat.le_refl 1)
    intro j hj hjl
    obtain ⟨k, rfl⟩ : ∃ k, j = k + 1 := ⟨j - 1, by omega⟩
    rw [charAt_cons_succ]
    have hkl : k < (c0 :: u').length := by
      simpa using hjl
    exact class_not_conv _ (hcl _ (charAt_mem _ _ hkl))
  have hevs : doVisit (37 :: c0 :: u') = Event.spec (scanSpec (37 :: c0 :: u') 1).1 ::
      doVisitF (37 :: c0 :: u') (u'.length + 1) ((scanSpec (37 :: c0 :: u') 1).2 + 1)
        (if (scanSpec (37 :: c0 :: u') 1).2 == (37 :: c0 :: u').length then ScanState.none
         else ScanState.string (scanSpec (37 :: c0 :: u') 1).2) := e1.trans e2
  refine ⟨⟨(scanSpec (37 :: c0 :: u') 1).1, _, hevs, hspec⟩, ?_⟩
  have hpr := tryParse_empty_specifier _ hspec
  have hstep : stepSpec S ⟨[], args, Option.none, 0⟩ (scanSpec (37 :: c0 :: u') 1).1 =
      ⟨[], args, some (.spec .missingSpecifier), 0⟩ := by
    simp [stepSpec, Formatter.hadError, hpr]
  have hft : formatTo S (37 :: c0 :: u') args =
      runEvents S (doVisit (37 :: c0 :: u')) ⟨[], args, Option.none, 0⟩ := rfl
  rw [hft, hevs, runEvents_cons,
    show stepEvent S (⟨[], args, Option.none, 0⟩ : Formatter)
        (Event.spec (scanSpec (37 :: c0 :: u') 1).1) =
      stepSpec S ⟨[], args, Option.none, 0⟩ (scanSpec (37 :: c0 :: u') 1).1 from rfl,
    hstep, runEvents_of_some S _ _ (.spec .missingSpecifier) rfl]

/-- C2 witness: the amended theorem applied to the template `"%h"`
(end-of-input reached while scanning the length modifier). -/
theorem c2_witness :
    (formatTo vecSink [37, 104] []).error = some (.spec .missingSpecifier) :=
  (c2_amended_eof_missing_specifier vecSink [] [104] (by decide)
    (by intro c hc; simp at hc; subst hc; right; right; right; decide)).2

/-- C3: the claim states that a precision field consisting of the single
byte `.` parses as precision 0.  The code disagrees:
`try_parse` strips the dot and feeds the empty remainder to
`str::parse::<usize>`, which fails on the empty string, so the parser
returns `InvalidPrec` and the pass fails with `Spec(InvalidPrec)`
(template `"%.s"`). -/
theorem c3_dot_precision_invalid :
    tryParse ⟨[], [], [46], [], [115]⟩ = .error .invalidPrec ∧
    formatResult vecSink [37, 46, 115] [.str [97, 98]] = .error (.spec .invalidPrec) := by
  decide

/-- C4: the claim states that a pass completing with no latched error
but with the argument cursor short of the argument-list end signals the
excess-arguments condition as a separately-observable non-fatal outcome.
The code disagrees: the `ExcessArgs` variant exists (and its own doc
comment describes it as ignorable) but nothing ever constructs it —
`format_to` returns the latched error or plain success, with no cursor
check.  First conjunct: no pass, over any sink, template and argument
list, ever ends with `ExcessArgs` latched.  The remaining conjuncts
evaluate the concrete failing input: template `"a"` with one unused
argument returns success, cursor 0 short of length 1, nothing
observable. -/
theorem c4_excess_args_never_signaled :
    (∀ (S : Sink) (t : List Nat) (args : List Value),
      isExcessO (formatTo S t args).error = false) ∧
    formatResult vecSink [97] [.int 5] = .ok [97] ∧
    (formatTo vecSink [97] [.int 5]).nextArg = 0 ∧
    (formatTo vecSink [97] [.int 5]).args.length = 1 := by
  refine ⟨?_, by decide, by decide, by decide⟩
  intro S t args
  exact exc_runEvents S (doVisit t) ⟨[], args, Option.none, 0⟩ rfl

/-- C5 (counterexample): the claim asserts that a template with more
conversion specifications than supplied arguments, driven into a
non-failing sink, always yields `NotEnoughArguments`.  The template
`"%hhd %d"` contains two specification events; with the single argument
200 the first conversion latches `NumOverflow` (200 exceeds the signed
8-bit bound) before the argument list is ever exhausted, so the pass
ends with `NumOverflow`, not `NotEnoughArguments`. -/
theorem c5_counterexample :
    countSpecs (doVisit [37, 104, 104, 100, 32, 37, 100]) = 2 ∧
    ([Value.int 200].length) < 2 ∧
    formatResult vecSink [37, 104, 104, 100, 32, 37, 100] [.int 200] =
      .error .numOverflow := by
  decide

/-- C5 (amended): over any sink, a pass over a template with more
specification events than argument values always ends with some latched
error; the argument cursor never passes the end of the argument list
(so the code never reads out of bounds); and the latched error is
`NotEnoughArguments` precisely in the starvation situation — when a
parseable, supported specification is processed with no prior error and
the cursor already at the end of the argument list.  An earlier failure
(such as the `NumOverflow` of the counterexample) yields that error
instead. -/
theorem c5_amended_argument_starvation :
    (∀ (S : Sink) (t : List Nat) (args : List Value),
      args.length < countSpecs (doVisit t) → (formatTo S t args).error.isSome = true) ∧
    (∀ (S : Sink) (t : List Nat) (args : List Value),
      (formatTo S t args).nextArg ≤ args.length) ∧
    (∀ (S : Sink) (f : Formatter) (r : RawSpecEvent) (p : ParsedConversionSpecification),
      f.error = Option.none → tryParse r = .ok p → p.isSupported = true →
        f.nextArg = f.args.length →
        (stepSpec S f r).error = some .notEnoughArguments) := by
  refine ⟨?_, ?_, ?_⟩
  · intro S t args h
    cases herr : (formatTo S t args).error with
    | some e => rfl
    | none =>
      have hc := runEvents_count S (doVisit t) ⟨[], args, Option.none, 0⟩ herr
      have hle := runEvents_nextArg_le S (doVisit t) ⟨[], args, Option.none, 0⟩
        (by simp)
      have hna : (formatTo S t args).nextArg =
          (⟨[], args, Option.none, 0⟩ : Formatter).nextArg + countSpecs (doVisit t) := hc
      have hle' : (formatTo S t args).nextArg ≤ args.length := hle
      simp only [show (⟨[], args, Option.none, 0⟩ : Formatter).nextArg = 0 from rfl] at hna
      omega
  · intro S t args
    exact runEvents_nextArg_le S (doVisit t) ⟨[], args, Option.none, 0⟩ (by simp)
  · intro S f r p hf hp hsup hlen
    have hhe : f.hadError = false := by simp [Formatter.hadError, hf]
    simp only [stepSpec, hhe, Bool.false_eq_true, if_false, hp, hsup, Bool.not_true]
    simp [formatArg, hlen]

/-- C5 witness: the starvation conjunct applied to a fresh formatter with
an empty argument list and the raw specification of `%d`. -/
theorem c5_witness :
    (stepSpec vecSink ⟨[], [], Option.none, 0⟩ ⟨[], [], [], [], [100]⟩).error =
      some .notEnoughArguments :=
  c5_amended_argument_starvation.2.2 vecSink ⟨[], [], Option.none, 0⟩
    ⟨[], [], [], [], [100]⟩ ⟨.signDecInt, {}, .none, 0, Option.none⟩
    rfl (by decide) (by decide) rfl

/-- C6: once an error is latched, every subsequent visitor callback is a
no-op — the formatter state (output bytes, argument cursor, latched
error) is exactly unchanged by any further event, over any sink, and
the remaining scan still runs to completion structurally (folding the
whole remaining event list leaves the state untouched rather than
aborting). -/
theorem c6_latched_error_noop :
    (∀ (S : Sink) (f : Formatter) (ev : Event) (e : FormatToError),
      f.error = some e → stepEvent S f ev = f) ∧
    (∀ (S : Sink) (evs : List Event) (f : Formatter) (e : FormatToError),
      f.error = some e → runEvents S evs f = f) :=
  ⟨fun S f ev e h => stepEvent_of_some S f ev e h,
   fun S evs f e h => runEvents_of_some S evs f e h⟩

/-- C6 witness: a formatter with a latched `BadType` error ignores a
further literal-bytes event. -/
theorem c6_witness :
    stepEvent vecSink ⟨[49], [], some .badType, 0⟩ (.bytes [50]) =
      ⟨[49], [], some .badType, 0⟩ :=
  c6_latched_error_noop.1 vecSink ⟨[49], [], some .badType, 0⟩ (.bytes [50]) .badType rfl

/-- C7: for signed-decimal-integer conversions the inclusive bound pair
follows the length modifier — signed 8-bit for `hh`, 16-bit for `h`,
32-bit for none, 64-bit for both `l` and `ll`, 128-bit for `j`,
pointer-sized for `z`/`Z` (the model fixes a 64-bit target) — the `L`
and `t` modifiers latch `Unsupported`, a value outside the bound latches
`NumOverflow` (concretely, `%hhd` with 200 does), and an in-bound value
is rendered as its minimal decimal text, with a `-` sign exactly when
negative (the digits decode back to the value and carry no leading
zero), handed to the padding writer. -/
theorem c7_int_bounds_and_rendering :
    (intBounds .shorter = some (-(2 ^ 7), 2 ^ 7 - 1) ∧
      intBounds .short = some (-(2 ^ 15), 2 ^ 15 - 1) ∧
      intBounds .none = some (-(2 ^ 31), 2 ^ 31 - 1) ∧
      intBounds .long = some (-(2 ^ 63), 2 ^ 63 - 1) ∧
      intBounds .longer = some (-(2 ^ 63), 2 ^ 63 - 1) ∧
      intBounds .longest = some (-(2 ^ 127), 2 ^ 127 - 1) ∧
      intBounds .size = some (-(2 ^ (PTR_BITS - 1)), 2 ^ (PTR_BITS - 1) - 1) ∧
      intBounds .longDouble = Option.none ∧
      intBounds .ptrDiff = Option.none) ∧
    (∀ (S : Sink) (f : Formatter) (x : Int) (sp : ParsedConversionSpecification),
      sp.conv_kind = .signDecInt →
        (sp.len_modifier = .longDouble ∨ sp.len_modifier = .ptrDiff) →
        formatInt S f x sp = { f with error := some .unsupported }) ∧
    (∀ (S : Sink) (f : Formatter) (x : Int) (sp : ParsedConversionSpecification) (lo hi : Int),
      sp.conv_kind = .signDecInt → intBounds sp.len_modifier = some (lo, hi) →
        (x < lo ∨ hi < x) →
        formatInt S f x sp = { f with error := some .numOverflow }) ∧
    formatResult vecSink [37, 104, 104, 100] [.int 200] = .error .numOverflow ∧
    (∀ (f : Formatter) (x : Int) (sp : ParsedConversionSpecification) (lo hi : Int),
      sp.conv_kind = .signDecInt → intBounds sp.len_modifier = some (lo, hi) →
        lo ≤ x → x ≤ hi →
        formatInt vecSink f x sp = writeData vecSink f (sdec x) sp) ∧
    (∀ x : Int, x < 0 → sdec x = 45 :: natDigits x.natAbs) ∧
    (∀ x : Int, 0 ≤ x → sdec x = natDigits x.natAbs) ∧
    (∀ n : Nat, decodeDec (natDigits n) = n) ∧
    (∀ n : Nat, n ≠ 0 → (natDigits n).headD 0 ≠ 48) := by
  refine ⟨by decide, ?_, ?_, by decide, ?_, sdec_neg, sdec_nonneg, natDigits_decode,
    natDigits_head⟩
  · intro S f x sp h1 h2
    have hb : intBounds sp.len_modifier = Option.none := by
      rcases h2 with h | h <;> rw [h] <;> rfl
    simp [formatInt, h1, hb]
  · intro S f x sp lo hi h1 hb hx
    simp only [formatInt, h1, hb]
    rw [if_pos hx]
  · intro f x sp lo hi h1 hb hx1 hx2
    simp only [formatInt, h1, hb]
    rw [if_neg (by omega : ¬(x < lo ∨ hi < x))]

/-- C7 witness: the overflow conjunct applied to `%hhd` with value 200. -/
theorem c7_witness :
    (formatInt vecSink ⟨[], [], Option.none, 0⟩ 200
      ⟨.signDecInt, {}, .shorter, 0, Option.none⟩).error = some .numOverflow := by
  rw [c7_int_bounds_and_rendering.2.2.1 vecSink ⟨[], [], Option.none, 0⟩ 200
    ⟨.signDecInt, {}, .shorter, 0, Option.none⟩ (-(2 ^ 7)) (2 ^ 7 - 1) rfl rfl
    (by omega)]

/-- C8: under a non-failing sink, a rendered conversion emits exactly
`max (natural length) min_width` bytes — always at least `min_width`,
and exactly `min_width` when `min_width` exceeds the natural length;
the padding block sits before the data unless the left-adjust flag is
set (then after) with the same padding character either way; and a
string conversion that renders successfully always pads with the space
byte 32. -/
theorem c8_width_padding :
    (∀ (f : Formatter) (data : List Nat) (sp : ParsedConversionSpecification),
      (writeData vecSink f data sp).out.length = f.out.length + max data.length sp.min_width) ∧
    (∀ (f : Formatter) (data : List Nat) (sp : ParsedConversionSpecification),
      sp.min_width ≤ (writeData vecSink f data sp).out.length - f.out.length) ∧
    (∀ (f : Formatter) (data : List Nat) (sp : ParsedConversionSpecification),
      data.length < sp.min_width →
        (writeData vecSink f data sp).out.length = f.out.length + sp.min_width) ∧
    (∀ (f : Formatter) (data : List Nat) (sp : ParsedConversionSpecification),
      (writeData vecSink f data sp).out =
        f.out ++ (if sp.flags.adj_left then
            data ++ List.replicate (padSize sp data.length) (padChar sp)
          else List.replicate (padSize sp data.length) (padChar sp) ++ data)) ∧
    (∀ (f : Formatter) (b : List Nat) (sp : ParsedConversionSpecification),
      sp.conv_kind = .string →
      (sp.flags.alt || sp.flags.pad_zero || sp.flags.comma_groups ||
        sp.flags.alt_digits) = false →
      (formatBytes vecSink f b sp).out =
        f.out ++ (if sp.flags.adj_left then
            b.take (min b.length (sp.prec.getD b.length)) ++
              List.replicate
                (padSize sp (b.take (min b.length (sp.prec.getD b.length))).length) 32
          else List.replicate
                (padSize sp (b.take (min b.length (sp.prec.getD b.length))).length) 32 ++
            b.take (min b.length (sp.prec.getD b.length)))) := by
  have key : ∀ (f : Formatter) (data : List Nat) (sp : ParsedConversionSpecification),
      (writeData vecSink f data sp).out.length = f.out.length + max data.length sp.min_width := by
    intro f data sp
    rw [writeData_vecSink]
    cases h : sp.flags.adj_left <;> simp [h, padSize] <;> split <;> omega
  refine ⟨key, ?_, ?_, ?_, ?_⟩
  · intro f data sp
    have := key f data sp
    omega
  · intro f data sp h
    have := key f data sp
    omega
  · intro f data sp
    rw [writeData_vecSink]
  · intro f b sp hk hfl
    have hfl' := hfl
    simp only [Bool.or_eq_false_iff] at hfl'
    obtain ⟨⟨⟨_, hpz⟩, _⟩, _⟩ := hfl'
    simp only [formatBytes, hk, hfl, Bool.false_eq_true, if_false]
    rw [writeData_vecSink]
    simp [padChar, hpz]

/-- C8 witness: the exact-width conjunct applied to data `"hi"` under
minimum width 5. -/
theorem c8_witness :
    (writeData vecSink ⟨[], [], Option.none, 0⟩ [104, 105]
      ⟨.string, {}, .none, 5, Option.none⟩).out.length = 0 + 5 :=
  c8_width_padding.2.2.1 ⟨[], [], Option.none, 0⟩ [104, 105]
    ⟨.string, {}, .none, 5, Option.none⟩ (by decide)

/-- C9: a byte-string conversion with specified precision `p` hands the
padding writer exactly the first `min (byte length) p` bytes of the
argument, over any sink; and a byte-string conversion whose descriptor
has the zero-pad flag set (likewise alternate-form, thousands-grouping
or alternate-digits) latches the `Invalid` error with nothing written
and no argument state touched. -/
theorem c9_precision_truncation_and_invalid_flags :
    (∀ (S : Sink) (f : Formatter) (b : List Nat) (sp : ParsedConversionSpecification)
        (p : Nat),
      sp.conv_kind = .string → sp.prec = some p →
      (sp.flags.alt || sp.flags.pad_zero || sp.flags.comma_groups ||
        sp.flags.alt_digits) = false →
      formatBytes S f b sp = writeData S f (b.take (min b.length p)) sp) ∧
    (∀ (S : Sink) (f : Formatter) (b : List Nat) (sp : ParsedConversionSpecification),
      sp.conv_kind = .string →
      (sp.flags.alt || sp.flags.pad_zero || sp.flags.comma_groups ||
        sp.flags.alt_digits) = true →
      formatBytes S f b sp = { f with error := some .invalid }) := by
  constructor
  · intro S f b sp p hk hp hfl
    simp [formatBytes, hk, hfl, hp]
  · intro S f b sp hk hfl
    simp [formatBytes, hk, hfl]

/-- C9 witness: the invalid-flags conjunct applied to a zero-padded
string conversion. -/
theorem c9_witness :
    formatBytes vecSink ⟨[], [], Option.none, 0⟩ [97, 98]
      ⟨.string, { pad_zero := true }, .none, 0, Option.none⟩ =
      ⟨[], [], some .invalid, 0⟩ := by
  rw [c9_precision_truncation_and_invalid_flags.2 vecSink ⟨[], [], Option.none, 0⟩
    [97, 98] ⟨.string, { pad_zero := true }, .none, 0, Option.none⟩ rfl (by decide)]

/-- C10: for a negative in-bound integer conversion with the zero-pad
flag set, left-adjust clear and minimum width exceeding the natural
rendered length, the padding zeros are emitted before the minus sign:
the output is the zeros followed by `-` and the digits.  Concretely,
`%05d` with value -42 renders `00-42`. -/
theorem c10_zero_padding_before_sign :
    (∀ (f : Formatter) (x : Int) (sp : ParsedConversionSpecification) (lo hi : Int),
      sp.conv_kind = .signDecInt → intBounds sp.len_modifier = some (lo, hi) →
      lo ≤ x → x ≤ hi → x < 0 →
      sp.flags.pad_zero = true → sp.flags.adj_left = false →
      (sdec x).length < sp.min_width →
      (formatInt vecSink f x sp).out =
        f.out ++ (List.replicate (sp.min_width - (sdec x).length) 48 ++
          (45 :: natDigits x.natAbs))) ∧
    formatResult vecSink [37, 48, 53, 100] [.int (-42)] = .ok [48, 48, 45, 52, 50] := by
  constructor
  · intro f x sp lo hi hk hb hx1 hx2 hneg hpz hadj hlen
    simp only [formatInt, hk, hb]
    rw [if_neg (by omega : ¬(x < lo ∨ hi < x)), writeData_vecSink, hadj]
    have hlen2 : (natDigits x.natAbs).length + 1 < sp.min_width := by
      have h := hlen
      rw [sdec_neg x hneg] at h
      simpa using h
    simp [padChar, hpz, sdec_neg x hneg, padSize, hlen2]
  · decide

/-- C10 witness: the general conjunct applied to `%05d` with value -42
yields the bytes `00-42`. -/
theorem c10_witness :
    (formatInt vecSink ⟨[], [], Option.none, 0⟩ (-42)
      ⟨.signDecInt, { pad_zero := true }, .none, 5, Option.none⟩).out =
      [48, 48, 45, 52, 50] := by
  rw [c10_zero_padding_before_sign.1 ⟨[], [], Option.none, 0⟩ (-42)
    ⟨.signDecInt, { pad_zero := true }, .none, 5, Option.none⟩ (-(2 ^ 31)) (2 ^ 31 - 1)
    rfl rfl (by omega) (by omega) (by omega) rfl rfl (by decide)]
  decide

end Formatf
